import Mathlib

/-
Verification development for the RN-CRP repository
(FieteLab-Recursive-Nonstationary-CRP).

The core under scrutiny is `rncrp/inference/rncrp.py`, in particular the
`RecursiveNonstationaryCRP` class: its `fit` orchestrator (the per-observation
loop), the cluster-assignment prior builder, the cluster-count posterior
recursion, the coordinate-ascent optimizers for the multivariate-normal
likelihood, and the post-fit accessor `features_after_last_obs`.

Embedding conventions:
  - Tensors are nested lists of rationals; exact rational arithmetic stands in
    for float32.  Operations that can raise in Python (out-of-bounds indexing,
    shape-mismatched tensor ops, singular matrix inversion, the repository's
    own `assert_torch_no_nan_no_inf_is_real` checks) are modelled in the
    `Except String` monad, with a distinct message constant standing for each
    raise site.
  - `scipy.linalg.sqrtm`, `np.sqrt`, `torch.exp` and `torch.log` are
    irrational-valued; they are abstracted into a `NumericOracle` of rational
    stand-ins.  No proved statement depends on the values these produce, only
    on the data flow around them.  The softmax's defining properties are
    additionally proved over the reals (`softargmaxR`).
  - The dynamics module (`rncrp/helpers/dynamics.py`), the torch helpers
    (`rncrp/helpers/torch_helpers.py`) and `rncrp/inference/base.py` are not
    part of the provided sources; the dynamics process is therefore kept
    abstract as a `DynamicsModel` capability record matching the spec's
    contract in section 4.1, with a concrete spec-modelled step-dynamics
    instance used for concrete runs.
-/

namespace RNCRP

abbrev Vec := List ℚ
abbrev Mat := List Vec
abbrev T3 := List Mat
abbrev T4 := List T3

/- Error message constants.  Each names the Python raise/assert site it
models; the text itself is a modelling convention. -/

def errTimesIdx (i : Nat) : String :=
  "IndexError: torch_observations_times position " ++ Nat.repr i

def errNotImplDM : String :=
  "NotImplementedError: dirichlet_multinomial likelihood"

def errNotImplOtherDist : String :=
  "NotImplementedError: unrecognized likelihood distribution"

def errNotImplNumOpt : String :=
  "NotImplementedError: numerically_optimize"

def errNotImplFeatures : String :=
  "NotImplementedError: features_after_last_obs"

def errAssertPriorFinite : String :=
  "AssertionError: cluster_assignment_prior is not finite-real"

def errAssertSigma : String :=
  "AssertionError: sigma_obs_squared must be positive"

def errAssertProbRange : String :=
  "AssertionError: cluster assignment posterior outside the unit interval"

def errSoftmaxFinite : String :=
  "AssertionError: softmax output is not finite-real"

def errEinsumShape : String :=
  "RuntimeError: einsum operand shape mismatch"

def errAddShape : String :=
  "RuntimeError: torch.add shape mismatch"

def errMulShape : String :=
  "RuntimeError: torch.multiply shape mismatch"

def errSliceAddShape : String :=
  "RuntimeError: in-place slice add shape mismatch"

def errSliceAssignShape : String :=
  "RuntimeError: slice assignment shape mismatch"

def errRowAssignShape : String :=
  "RuntimeError: row assignment shape mismatch"

def errMatMulShape : String :=
  "RuntimeError: matmul shape mismatch"

def errSingular : String :=
  "RuntimeError: torch.linalg.inv on a singular matrix"

def errSqrtmWrite : String :=
  "IndexError: stddevs write past row end"

/- Generic list toolbox. -/

/-- Bounds-checked list indexing, modelling fallible tensor indexing. -/
def geti {α : Type} (l : List α) (n : Nat) (msg : String) : Except String α :=
  match l.get? n with
  | some a => .ok a
  | none => .error msg

/-- Index-aware map, used to state pointwise slice-update semantics. -/
def mapWithIdx {α β : Type} (f : Nat → α → β) : Nat → List α → List β
  | _, [] => []
  | i, a :: as => f i a :: mapWithIdx f (i + 1) as

/-- Except-valued map over a list (first error wins). -/
def mapExc {α β : Type} (f : α → Except String β) : List α → Except String (List β)
  | [] => .ok []
  | a :: as => (f a).bind fun b => (mapExc f as).bind fun bs => .ok (b :: bs)

/-- Except-valued binary zip requiring equal lengths. -/
def zipWithExc {α β γ : Type} (f : α → β → Except String γ) (msg : String) :
    List α → List β → Except String (List γ)
  | [], [] => .ok []
  | a :: as, b :: bs =>
      (f a b).bind fun c => (zipWithExc f msg as bs).bind fun cs => .ok (c :: cs)
  | _, _ => .error msg

/-- Running cumulative sums (`torch.cumsum`). -/
def cumsumFrom (acc : ℚ) : Vec → Vec
  | [] => []
  | a :: as => (acc + a) :: cumsumFrom (acc + a) as

def cumsum (v : Vec) : Vec := cumsumFrom 0 v

def smulVec (c : ℚ) (v : Vec) : Vec := v.map (fun x => c * x)

def smulMat (c : ℚ) (m : Mat) : Mat := m.map (smulVec c)

def zerosVec (n : Nat) : Vec := List.replicate n (0 : ℚ)

def zerosMat (n m : Nat) : Mat := List.replicate n (zerosVec m)

def zerosT3 (n m d : Nat) : T3 := List.replicate n (zerosMat m d)

/-- The identity matrix (`torch.eye`). -/
def eye (n : Nat) : Mat :=
  (List.range n).map fun i => (List.range n).map fun j => if i = j then (1 : ℚ) else 0

/-- One-hot vector on slot 0, as produced by writing 1 into a zero row. -/
def oneHot (n : Nat) : Vec := (zerosVec n).set 0 1

/-- Elementwise add with torch-style size-1 broadcasting. -/
def taddV (a b : Vec) : Except String Vec :=
  if a.length = b.length then .ok (List.zipWith (· + ·) a b)
  else if b.length = 1 then .ok (a.map (fun x => x + b.getD 0 0))
  else if a.length = 1 then .ok (b.map (fun x => a.getD 0 0 + x))
  else .error errAddShape

/-- Elementwise multiply with torch-style size-1 broadcasting. -/
def tmulV (a b : Vec) : Except String Vec :=
  if a.length = b.length then .ok (List.zipWith (· * ·) a b)
  else if b.length = 1 then .ok (a.map (fun x => x * b.getD 0 0))
  else if a.length = 1 then .ok (b.map (fun x => a.getD 0 0 * x))
  else .error errMulShape

/-- Batched matrix add (equal batch sizes required). -/
def taddM (a b : Mat) : Except String Mat := zipWithExc taddV errAddShape a b

def taddT3 (a b : T3) : Except String T3 := zipWithExc taddM errAddShape a b

/-- In-place slice add `x[lo:hi] += y`, with torch semantics: the slice is
clamped to the vector, and `y` must match the slice length or broadcast from
length 1. -/
def sliceAddVec (x : Vec) (lo hi : Nat) (y : Vec) : Except String Vec :=
  let bound := min hi x.length
  let sliceLen := bound - lo
  if y.length = sliceLen then
    .ok (mapWithIdx (fun j a => if lo ≤ j ∧ j < bound then a + y.getD (j - lo) 0 else a) 0 x)
  else if y.length = 1 then
    .ok (mapWithIdx (fun j a => if lo ≤ j ∧ j < bound then a + y.getD 0 0 else a) 0 x)
  else .error errSliceAddShape

/-- Row write into a nested tensor: `t[i][j] := v`. -/
def set2 (m : Mat) (i j : Nat) (v : ℚ) : Mat := m.set i ((m.getD i []).set j v)

def set2V (t : T3) (i j : Nat) (v : Vec) : T3 := t.set i ((t.getD i []).set j v)

/-- Copy step-`(i-1)` parameters into step `i` (warm start). -/
def copyRow {α : Type} (l : List α) (i : Nat) (d : α) : List α := l.set i (l.getD (i - 1) d)

/-- `m[i, :len v] = v`: prefix assignment into row `i`, failing when the
right-hand side is longer than the row. -/
def assignRowPrefix (m : Mat) (i : Nat) (v : Vec) : Except String Mat :=
  let row := m.getD i []
  if v.length ≤ row.length then .ok (m.set i (v ++ row.drop v.length))
  else .error errSliceAssignShape

/-- `m[i, :] = v`: full row assignment, allowing torch's length-1 broadcast. -/
def assignRowFull (m : Mat) (i : Nat) (v : Vec) : Except String Mat :=
  let row := m.getD i []
  if v.length = row.length then .ok (m.set i v)
  else if v.length = 1 then .ok (m.set i (List.replicate row.length (v.getD 0 0)))
  else .error errRowAssignShape

/-- `t[i, :k, :] = vs`: prefix-of-row assignment for a rank-3 tensor. -/
def assignRow3Prefix (t : T3) (i k : Nat) (vs : List Vec) : Except String T3 :=
  let row := t.getD i []
  if vs.length = min k row.length then .ok (t.set i (vs ++ row.drop vs.length))
  else .error errSliceAssignShape

def sumQ (v : Vec) : ℚ := v.sum

def dotE (a b : Vec) : Except String ℚ :=
  if a.length = b.length then .ok (List.zipWith (· * ·) a b).sum
  else .error errEinsumShape

/-- Matrix transpose by explicit coordinates. -/
def transposeM (m : Mat) : Mat :=
  (List.range ((m.getD 0 []).length)).map fun j => m.map fun r => r.getD j 0

/-- Matrix multiplication with inner-dimension check. -/
def matMulQ (a b : Mat) : Except String Mat :=
  let p := (b.getD 0 []).length
  if a.all (fun r => r.length = b.length) then
    .ok (a.map fun r => (List.range p).map fun j => (List.zipWith (fun x br => x * br.getD j 0) r b).sum)
  else .error errMatMulShape

def traceQ (m : Mat) : ℚ :=
  ((List.range m.length).map fun k => (m.getD k []).getD k 0).sum

/- Exact matrix inversion by Gauss-Jordan elimination with partial pivoting,
modelling `torch.linalg.inv` (which raises on singular input). -/

/-- Swap two rows of an augmented system. -/
def swapRows (l : List (Vec × Vec)) (i j : Nat) : List (Vec × Vec) :=
  if i = j then l
  else (l.set i (l.getD j ([], []))).set j (l.getD i ([], []))

/-- Subtract a multiple of the pivot row so that column `col` vanishes. -/
def elimAgainst (piv : Vec × Vec) (col : Nat) (row : Vec × Vec) : Vec × Vec :=
  let f := row.1.getD col 0
  (List.zipWith (fun a b => a - f * b) row.1 piv.1,
   List.zipWith (fun a b => a - f * b) row.2 piv.2)

def gaussJordan (n : Nat) : Nat → List (Vec × Vec) → Except String (List (Vec × Vec))
  | 0, rows => .ok rows
  | fuel + 1, rows =>
      let col := n - (fuel + 1)
      match (rows.drop col).findIdx? (fun r => r.1.getD col 0 ≠ 0) with
      | none => .error errSingular
      | some k =>
          let rows₁ := swapRows rows col (col + k)
          let piv := rows₁.getD col ([], [])
          let p := piv.1.getD col 0
          let pivN : Vec × Vec := (piv.1.map (· / p), piv.2.map (· / p))
          let rows₂ := rows₁.set col pivN
          let rows₃ := mapWithIdx (fun i r => if i = col then r else elimAgainst pivN col r) 0 rows₂
          gaussJordan n fuel rows₃

/-- Matrix inverse over ℚ (`torch.linalg.inv`): fails on non-square or
singular input. -/
def matInvQ (m : Mat) : Except String Mat :=
  let n := m.length
  if m.all (fun r => r.length = n) then
    (gaussJordan n n (m.zip ((List.range n).map fun i =>
      (List.range n).map fun j => if i = j then (1 : ℚ) else 0))).bind fun res =>
      .ok (res.map (·.2))
  else .error errMatMulShape

/- Abstract numeric functions.  The Python code applies `np.sqrt`,
`scipy.linalg.sqrtm`, `torch.exp` and `torch.log` to floats; over exact
rationals these have no faithful computable counterpart, so the model is
parameterized by arbitrary rational stand-ins.  No proved statement depends
on the values they return. -/
structure NumericOracle where
  sqrtQ : ℚ → ℚ
  sqrtmQ : Mat → Mat
  expQ : ℚ → ℚ
  logQ : ℚ → ℚ

/-- A trivial oracle used to instantiate concrete runs. -/
def idOracle : NumericOracle :=
  { sqrtQ := fun q => q, sqrtmQ := fun m => m, expQ := fun q => q, logQ := fun q => q }

/-- Modelled from the spec: the dynamics module `rncrp/helpers/dynamics.py` is
not among the provided sources, so the dynamics process is kept as the opaque
capability record of spec section 4.1: `initialize_state(assignment_probs,
time)`, `run_dynamics(time_start, time_end)` returning the pseudo-occupancy
vector `state['N']`, and `update_state(assignment_probs, time)`.  `init0` is
the internal state the object carries before `initialize_state` is called. -/
structure DynamicsModel (S : Type) where
  init0 : S
  initState : List ℚ → ℚ → S
  runDyn : S → ℚ → ℚ → S × List ℚ
  updState : S → List ℚ → ℚ → S

/-- Modelled from the spec: a concrete identity/"step" dynamics family
(spec section 4.1 names identity/"step" dynamics as an example law): the state
is the accumulated pseudo-occupancy vector, `run_dynamics` forecasts it
unchanged, and `update_state` accumulates the committed assignment
probabilities. -/
def stepDynamics : DynamicsModel (List ℚ) :=
  { init0 := []
    initState := fun probs _ => probs
    runDyn := fun s _ _ => (s, s)
    updState := fun s probs _ =>
      List.zipWith (· + ·) s probs ++ (probs.drop s.length) }

/-- Record of the calls made to the dynamics object during a fit; used to
state which forecasts were requested and what was committed. -/
inductive DynEvent where
  | initEv (assignmentProbs : Vec) (time : ℚ)
  | runEv (timeStart timeEnd : ℚ)
  | updEv (assignmentProbs : Vec) (time : ℚ)
deriving DecidableEq

/-- The configuration bundle handed to the model constructor
(`gen_model_params` flattened to the fields the core reads). -/
structure GenModelParams where
  alpha : ℚ
  beta : ℚ
  distribution : String
  centroidsPriorCovPrefactor : ℚ
  likelihoodCovPrefactor : ℚ
deriving DecidableEq

def mvnStr : String := "multivariate_normal"

def dmStr : String := "dirichlet_multinomial"

/-- Everything `fit` reads from `self` apart from the result attributes:
configuration, coordinate-ascent controls, the dynamics object and the
numeric oracle. -/
structure Ctx (S : Type) where
  cfg : GenModelParams
  numCoordAscentStepsPerObs : Nat
  numericallyOptimize : Bool
  dyn : DynamicsModel S
  oracle : NumericOracle

/-- The result bundle assembled at the end of `fit` (`self._fit_results`):
`parameters` holds the `means`/`stddevs` tensors of the variational family. -/
structure FitResults where
  cluster_assignment_priors : Mat
  cluster_assignment_posteriors : Mat
  num_clusters_posteriors : Mat
  parameters_means : T3
  parameters_stddevs : T4
deriving DecidableEq

/-- The two result attributes of the model object: `__init__` sets
`self.fit_results = None` (line 44) and `self._fit_results = None` (line 55);
they are distinct plain attributes. -/
structure ModelState where
  fit_results : Option FitResults
  internal_fit_results : Option FitResults
deriving DecidableEq

/-- The model object as produced by `__init__`. -/
def initialModelState : ModelState := { fit_results := none, internal_fit_results := none }

/-- What a completed `fit` call leaves behind: the updated model object, the
trace of dynamics interactions, and the value of the `return` statement
(`return self.fit_results`, an `Option` since the attribute may be `None`). -/
structure FitSuccess where
  model : ModelState
  dynLog : List DynEvent
  ret : Option FitResults
deriving DecidableEq

/-- Mutable state threaded through the fit loop. -/
structure LoopState (S : Type) where
  priors : Mat
  counts : Mat
  probs : Mat
  means : T3
  stddevs : T4
  dynState : S
  dynLog : List DynEvent

/-- Modelled from the spec: `convert_stddev_to_cov` lives in the absent
`rncrp/helpers/torch_helpers.py`; per spec section 3 the covariance is the
"stddevᵗ·stddev-like reconstruction" of the stored matrix square root. -/
def covOfStddev (s : Mat) : Except String Mat := matMulQ (transposeM s) s

/-- Steps 1(ii)-1(iii) of the fit loop (rncrp.py lines 144-149): add the
new-table mass `alpha * num_clusters_posteriors[i-1, :i]` onto slots
`1:i+1` of the dynamics forecast, renormalize, and run
`assert_torch_no_nan_no_inf_is_real` (which fires exactly when the
normalizing denominator is zero, the only NaN/Inf source in exact
arithmetic). -/
def buildPrior (alpha : ℚ) (i : Nat) (forecast : Vec) (prevCountsRow : Vec) :
    Except String Vec :=
  (sliceAddVec forecast 1 (i + 1) (smulVec alpha (prevCountsRow.take i))).bind fun raw =>
    if sumQ raw = 0 then .error errAssertPriorFinite
    else .ok (raw.map (· / sumQ raw))

/-- Step 4 of the fit loop (rncrp.py lines 198-210): the O(t) cluster-count
posterior recursion.  `posterior` is the realized assignment posterior row,
`prevCountsRow` the previous step's count-posterior row, `row` the (zero)
row being accumulated into. -/
def updateCountsRow (posterior prevCountsRow : Vec) (i : Nat) (row : Vec) :
    Except String Vec :=
  (tmulV (cumsum (posterior.take (i + 1))).dropLast (prevCountsRow.take i)).bind fun add1 =>
    (sliceAddVec row 0 i add1).bind fun row1 =>
      (tmulV ((cumsum (posterior.take (i + 1))).map (fun x => 1 - x)).dropLast
          (prevCountsRow.take i)).bind fun add2 =>
        sliceAddVec row1 1 (i + 1) add2

/-- `initialize_cluster_params_multivariate_normal` (rncrp.py lines 238-245):
only the slot-`i` mean is written (the stddev write is commented out in the
source). -/
def initClusterParamsMVN (ob : Vec) (i : Nat) (means : T3) : T3 :=
  set2V means i i ob

/-- The `for mean_idx, mean_cov in enumerate(means_covs)` loop writing
`scipy.linalg.sqrtm` results into `stddevs[i, mean_idx]` (rncrp.py lines
375-377); writing past the row's end would be an IndexError. -/
def writeSqrtms (oracle : NumericOracle) (stddevs : T4) (i : Nat) (covs : T3) :
    Except String T4 :=
  let row := stddevs.getD i []
  if covs.length ≤ row.length then
    .ok (stddevs.set i ((covs.map oracle.sqrtmQ) ++ row.drop covs.length))
  else .error errSqrtmWrite

/-- `einsum('aij,aj->ai')` / `einsum('bij,bj->bi')`: batched matrix-vector
products with batch-size check. -/
def einsumBatchMatVec (t : T3) (m : Mat) : Except String Mat :=
  if t.length = m.length then
    zipWithExc (fun mk v => mapExc (fun r => dotE r v) mk) errEinsumShape t m
  else .error errEinsumShape

/-- `einsum('b,bd->bd')` with torch-style size-1 batch broadcasting. -/
def einsumScaleRows (v : Vec) (rows : Mat) : Except String Mat :=
  if v.length = rows.length then .ok (List.zipWith smulVec v rows)
  else if rows.length = 1 then .ok (v.map fun c => smulVec c (rows.getD 0 []))
  else if v.length = 1 then .ok (rows.map (smulVec (v.getD 0 0)))
  else .error errEinsumShape

/-- `einsum('kd,d->k')`: per-slot dot products with the observation. -/
def einsumDots (m : Mat) (v : Vec) : Except String Vec :=
  mapExc (fun r => dotE r v) m

/-- `einsum('ki,kj->kij')`: per-slot outer products. -/
def einsumOuters (a b : Mat) : Except String T3 :=
  if a.length = b.length then
    .ok (List.zipWith (fun u w => u.map fun x => smulVec x w) a b)
  else .error errEinsumShape

/-- `optimize_cluster_params_multivariate_normal` (rncrp.py lines 331-408),
translated statement by statement.  The trailing `einsumScaleRows` combines
the full assignment-probability row (length `max_num_clusters`) with the
observation repeated `obs_idx` times, exactly as the source does. -/
def optimizeClusterParamsMVN (oracle : NumericOracle) (ob : Vec) (i : Nat)
    (probs : Mat) (means : T3) (stddevs : T4) (sigmaObsSquared : ℚ) :
    Except String (T3 × T4) :=
  if sigmaObsSquared ≤ 0 then .error errAssertSigma
  else
    let prevMeans := (means.getD (i - 1) []).take (i + 1)
    (mapExc covOfStddev ((stddevs.getD (i - 1) []).take (i + 1))).bind fun prevCovs =>
      (mapExc matInvQ prevCovs).bind fun prevPrecisions =>
        let obsDim := ob.length
        let maxNumClusters := prevMeans.length
        let w := (probs.getD i []).take (i + 1)
        (if w.length = maxNumClusters ∨ w.length = 1 ∨ maxNumClusters = 1 then
            Except.ok (w.map fun p => smulMat (p / sigmaObsSquared) (eye obsDim))
          else Except.error errMulShape).bind fun weightedEyes =>
          (taddT3 prevPrecisions weightedEyes).bind fun meanPrecisions =>
            (mapExc matInvQ meanPrecisions).bind fun meansCovs =>
              (writeSqrtms oracle stddevs i meansCovs).bind fun stddevs' =>
                (einsumBatchMatVec prevPrecisions prevMeans).bind fun termOne =>
                  (einsumScaleRows (probs.getD i [])
                      (List.replicate i ob)).bind fun termTwoRaw =>
                    let termTwo := termTwoRaw.map (smulVec (1 / sigmaObsSquared))
                    (taddM termOne termTwo).bind fun summed =>
                      (einsumBatchMatVec meansCovs summed).bind fun newMeans =>
                        (assignRow3Prefix means i (i + 1) newMeans).bind fun means' =>
                          .ok (means', stddevs')

/-- `optimize_cluster_assignments_multivariate_normal` (rncrp.py lines
284-325): log-prior plus the two likelihood terms, a softmax, and the
asserted `[0,1]` bounds on the output. -/
def optimizeClusterAssignmentsMVN (oracle : NumericOracle) (ob : Vec) (i : Nat)
    (clusterAssignmentPrior : Vec) (probs : Mat) (means : T3) (stddevs : T4)
    (sigmaObsSquared : ℚ) : Except String Mat :=
  (mapExc covOfStddev (stddevs.getD i [])).bind fun meansCovs =>
    let termOne := clusterAssignmentPrior.map oracle.logQ
    (einsumDots (means.getD i []) ob).bind fun dots =>
      let termTwo := smulVec (1 / sigmaObsSquared) dots
      (einsumOuters (means.getD i []) (means.getD i [])).bind fun outers =>
        (taddT3 meansCovs outers).bind fun added =>
          let termThree := smulVec (1 / sigmaObsSquared)
            (smulVec (-(1 / 2)) (added.map traceQ))
          (taddV termOne termTwo).bind fun t12 =>
            (taddV t12 termThree).bind fun scores =>
              let exps := scores.map oracle.expQ
              let denom := sumQ exps
              if denom = 0 then .error errSoftmaxFinite
              else
                let post := exps.map (· / denom)
                if post.all (fun p => 0 ≤ p ∧ p ≤ 1) then assignRowFull probs i post
                else .error errAssertProbRange

/-- Step 3 of the fit loop: `num_coord_ascent_steps_per_obs` alternating
passes; the numerically-optimized branch raises `NotImplementedError`. -/
def ascentLoop (ctx : Ctx S) (ob : Vec) (i : Nat) (clusterAssignmentPrior : Vec) :
    Nat → Mat × T3 × T4 → Except String (Mat × T3 × T4)
  | 0, vp => .ok vp
  | n + 1, (probs, means, stddevs) =>
      if ctx.numericallyOptimize then .error errNotImplNumOpt
      else
        (optimizeClusterParamsMVN ctx.oracle ob i probs means stddevs
            ctx.cfg.likelihoodCovPrefactor).bind fun ms =>
          (optimizeClusterAssignmentsMVN ctx.oracle ob i clusterAssignmentPrior
              probs ms.1 ms.2 ctx.cfg.likelihoodCovPrefactor).bind fun probs' =>
            ascentLoop ctx ob i clusterAssignmentPrior n (probs', ms.1, ms.2)

/-- One iteration of the `for obs_idx, torch_observation in enumerate(...)`
loop (rncrp.py lines 118-221). -/
def fitStep (ctx : Ctx S) (times : Vec) (i : Nat) (ob : Vec) (s : LoopState S) :
    Except String (LoopState S) :=
  if i = 0 then
    let priors := set2 s.priors 0 0 1
    let probs := set2 s.probs 0 0 1
    let counts := set2 s.counts 0 0 1
    (geti times 0 (errTimesIdx 0)).bind fun t0 =>
      let row0 := probs.getD 0 []
      let dynState := ctx.dyn.initState row0 t0
      let means := initClusterParamsMVN ob 0 s.means
      .ok { s with priors := priors, probs := probs, counts := counts,
                   means := means, dynState := dynState,
                   dynLog := s.dynLog ++ [DynEvent.initEv row0 t0] }
  else
    (geti times i (errTimesIdx i)).bind fun timeStart =>
      (geti times (i + 1) (errTimesIdx (i + 1))).bind fun timeEnd =>
        let dynOut := ctx.dyn.runDyn s.dynState timeStart timeEnd
        let log1 := s.dynLog ++ [DynEvent.runEv timeStart timeEnd]
        (buildPrior ctx.cfg.alpha i dynOut.2 (s.counts.getD (i - 1) [])).bind
          fun clusterAssignmentPrior =>
          (assignRowPrefix s.priors i clusterAssignmentPrior).bind fun priors =>
            let probs1 := copyRow s.probs i []
            let means1 := copyRow s.means i []
            let stddevs1 := copyRow s.stddevs i []
            let means2 := initClusterParamsMVN ob i means1
            (assignRowFull probs1 i clusterAssignmentPrior).bind fun probs2 =>
              (ascentLoop ctx ob i clusterAssignmentPrior
                  ctx.numCoordAscentStepsPerObs (probs2, means2, stddevs1)).bind
                fun vp =>
                let posterior := (vp.1.getD i [])
                (updateCountsRow posterior (s.counts.getD (i - 1) []) i
                    (s.counts.getD i [])).bind fun countsRow =>
                  let counts := s.counts.set i countsRow
                  let dynState := ctx.dyn.updState dynOut.1 posterior timeStart
                  .ok { priors := priors, counts := counts, probs := vp.1,
                        means := vp.2.1, stddevs := vp.2.2,
                        dynState := dynState,
                        dynLog := log1 ++ [DynEvent.updEv posterior timeStart] }

/-- The fit loop over the enumerated observations. -/
def runSteps (ctx : Ctx S) (times : Vec) :
    List (Nat × Vec) → LoopState S → Except String (LoopState S)
  | [], s => .ok s
  | (i, ob) :: rest, s => (fitStep ctx times i ob s).bind (runSteps ctx times rest)

/-- `List.enum` written out, so the loop lemmas can induct on it directly. -/
def enumFrom {α : Type} (i : Nat) : List α → List (Nat × α)
  | [] => []
  | a :: as => (i, a) :: enumFrom (i + 1) as

/-- The tensors allocated at the top of `fit` (rncrp.py lines 61-96):
`(N, N)` prior/count/assignment matrices, `(N, N, D)` means, and
`(N+1, N, D, D)` stddevs filled with `np.sqrt(centroids_prior_cov_prefactor)
* eye(D)`. -/
def initLS (ctx : Ctx S) (observations : List Vec) : LoopState S :=
  let n := observations.length
  let d := (observations.getD 0 []).length
  { priors := zerosMat n n
    counts := zerosMat n n
    probs := zerosMat n n
    means := zerosT3 n n d
    stddevs := List.replicate (n + 1)
      (List.replicate n (smulMat (ctx.oracle.sqrtQ ctx.cfg.centroidsPriorCovPrefactor) (eye d)))
    dynState := ctx.dyn.init0
    dynLog := [] }

/-- The result bundle assembled at rncrp.py lines 223-228. -/
def mkBundle (s : LoopState S) : FitResults :=
  { cluster_assignment_priors := s.priors
    cluster_assignment_posteriors := s.probs
    num_clusters_posteriors := s.counts
    parameters_means := s.means
    parameters_stddevs := s.stddevs }

/-- `RecursiveNonstationaryCRP.fit` (rncrp.py lines 57-230): dispatch on the
likelihood distribution, run the loop, store the bundle in
`self._fit_results`, and `return self.fit_results` — the *other* attribute,
untouched since `__init__`. -/
def fit (ctx : Ctx S) (model : ModelState) (observations : List Vec)
    (observationsTimes : Vec) : Except String FitSuccess :=
  if ctx.cfg.distribution = mvnStr then
    (runSteps ctx observationsTimes (enumFrom 0 observations)
        (initLS ctx observations)).bind fun s =>
      .ok { model := { model with internal_fit_results := some (mkBundle s) }
            dynLog := s.dynLog
            ret := model.fit_results }
  else if ctx.cfg.distribution = dmStr then .error errNotImplDM
  else .error errNotImplOtherDist

/-- `features_after_last_obs` (rncrp.py lines 232-236): the body is a bare
`raise NotImplementedError`, despite the docstring promising the
`(num features, feature dimension)` array. -/
def features_after_last_obs (_model : ModelState) : Except String Mat :=
  .error errNotImplFeatures

/- Concrete instantiations used in closed theorems. -/

/-- The standard context: multivariate-normal likelihood, `alpha = 1`,
`beta = 0`, unit prior/likelihood prefactors, default 3 coordinate-ascent
steps, closed-form (not numerical) optimization, step dynamics. -/
def ctxStd : Ctx (List ℚ) :=
  { cfg := { alpha := 1, beta := 0, distribution := mvnStr,
             centroidsPriorCovPrefactor := 1, likelihoodCovPrefactor := 1 }
    numCoordAscentStepsPerObs := 3
    numericallyOptimize := false
    dyn := stepDynamics
    oracle := idOracle }

/-- The standard context with the ascent loop disabled, used to observe the
dynamics-call trace of a full loop iteration. -/
def ctxNoAscent : Ctx (List ℚ) :=
  { ctxStd with numCoordAscentStepsPerObs := 0 }

/-- A context whose likelihood distribution is the unimplemented
Dirichlet-multinomial. -/
def ctxDM : Ctx (List ℚ) :=
  { ctxStd with cfg := { ctxStd.cfg with distribution := dmStr } }

/-- Projection discarding the success payload, to state concrete error
results decidably. -/
def errOf (e : Except String FitSuccess) : Option String :=
  match e with
  | .error msg => some msg
  | .ok _ => none

/-- Projection keeping the success payload. -/
def okOf (e : Except String FitSuccess) : Option FitSuccess :=
  match e with
  | .error _ => none
  | .ok s => some s

/-- Decidable check that every recorded assignment-posterior row of a
completed fit is entrywise in `[0,1]` and sums to 1 over its active slots
`0..t`; an erroring fit has no recorded rows to check. -/
def stochCheck (e : Except String FitSuccess) : Bool :=
  match e with
  | .error _ => true
  | .ok s =>
      match s.model.internal_fit_results with
      | none => true
      | some bundle =>
          let rows := bundle.cluster_assignment_posteriors
          (List.range rows.length).all fun t =>
            let r := (rows.getD t []).take (t + 1)
            r.all (fun p => decide (0 ≤ p) && decide (p ≤ 1)) && decide (sumQ r = 1)

/-- The real-valued softmax (`torch.nn.functional.softmax(dim=0)`) applied at
rncrp.py line 316: the faithful analytic model of the only step whose values
the rational embedding abstracts. -/
noncomputable def softargmaxR (x : List ℝ) : List ℝ :=
  x.map fun v => Real.exp v / (x.map Real.exp).sum

/-- Generic success projection for `Except`-valued runs. -/
def resOpt {β : Type} (e : Except String β) : Option β :=
  match e with
  | .ok b => some b
  | .error _ => none

/-- The prior builder as the claim states it (only the new-cluster slot `t`
gains the alpha term, namely `alpha` times the cumulative mass of the
previous step's count posterior, before renormalization).  Stated for
comparison with `buildPrior`, the builder the source implements. -/
def buildPriorNewSlotOnly (a : ℚ) (t : Nat) (forecast prevCountsRow : Vec) : Vec :=
  let raw := mapWithIdx
    (fun k x => if k = t then x + a * sumQ (prevCountsRow.take t) else x) 0 forecast
  raw.map (· / sumQ raw)

/-- The unnormalized prior the implementation actually computes: every slot
`k` with `1 ≤ k ≤ t` gains `alpha * prevCountsRow[k-1]`. -/
def priorUnnormalizedRef (a : ℚ) (t : Nat) (forecast prevCountsRow : Vec) : Vec :=
  mapWithIdx
    (fun k x => x + (if 1 ≤ k ∧ k ≤ t then a * prevCountsRow.getD (k - 1) 0 else 0)) 0 forecast

/-- The amended prior builder: the alpha term is spread over slots `1..t`
(slot `k` gains `alpha` times the previous count posterior's mass at count
`k`), and the whole vector is renormalized. -/
def buildPriorAmendedRef (a : ℚ) (t : Nat) (forecast prevCountsRow : Vec) : Vec :=
  let raw := priorUnnormalizedRef a t forecast prevCountsRow
  raw.map (· / sumQ raw)

/-- The cluster-count recursion exactly as the claim states it: with `C` the
cumulative sum of the assignment posterior over slots `0..t`, slot `k < t`
gains `C[k]·prev[k]` and slot `k+1` gains `(1-C[k])·prev[k]`. -/
def countsRecursionRef (posterior prevCountsRow : Vec) (t : Nat) (row : Vec) : Vec :=
  let c := cumsum (posterior.take (t + 1))
  mapWithIdx
    (fun k x =>
      x + (if k < t then c.getD k 0 * prevCountsRow.getD k 0 else 0)
        + (if 1 ≤ k ∧ k ≤ t then (1 - c.getD (k - 1) 0) * prevCountsRow.getD (k - 1) 0 else 0))
    0 row

/- Toolbox lemmas about the list combinators. -/

theorem length_mapWithIdx {α β : Type} (f : Nat → α → β) :
    ∀ (i : Nat) (l : List α), (mapWithIdx f i l).length = l.length := by
  intro i l
  induction l generalizing i with
  | nil => rfl
  | cons a as ih => simp [mapWithIdx, ih]

theorem getD_mapWithIdx (f : Nat → ℚ → ℚ) :
    ∀ (l : Vec) (i k : Nat), k < l.length →
      (mapWithIdx f i l).getD k 0 = f (i + k) (l.getD k 0) := by
  intro l
  induction l with
  | nil => intro i k h; simp at h
  | cons a as ih =>
      intro i k h
      cases k with
      | zero => simp [mapWithIdx]
      | succ k =>
          have hk : k < as.length := by simpa using h
          have := ih (i + 1) k hk
          simp only [mapWithIdx, List.getD_cons_succ]
          rw [this]
          ring_nf

theorem getD_set_self {α : Type} (l : List α) (i : Nat) (a d : α) (h : i < l.length) :
    (l.set i a).getD i d = a := by
  induction l generalizing i with
  | nil => simp at h
  | cons b bs ih =>
      cases i with
      | zero => rfl
      | succ i => exact ih i (by simpa using h)

theorem getD_replicate_pos {α : Type} (n k : Nat) (a d : α) (h : k < n) :
    (List.replicate n a).getD k d = a := by
  induction n generalizing k with
  | zero => omega
  | succ n ih =>
      cases k with
      | zero => rfl
      | succ k => exact ih k (by omega)

theorem getD_take {α : Type} (l : List α) (n k : Nat) (d : α) (h : k < n) :
    (l.take n).getD k d = l.getD k d := by
  induction l generalizing n k with
  | nil => simp
  | cons a as ih =>
      cases n with
      | zero => omega
      | succ n =>
          cases k with
          | zero => rfl
          | succ k => exact ih n k (by omega)

theorem getD_map0 (f : ℚ → ℚ) (l : Vec) (k : Nat) (h : k < l.length) :
    (l.map f).getD k 0 = f (l.getD k 0) := by
  induction l generalizing k with
  | nil => simp at h
  | cons a as ih =>
      cases k with
      | zero => rfl
      | succ k => exact ih k (by simpa using h)

theorem getD_dropLast {α : Type} (l : List α) (k : Nat) (d : α) (h : k + 1 < l.length) :
    l.dropLast.getD k d = l.getD k d := by
  induction l generalizing k with
  | nil => simp at h
  | cons a as ih =>
      cases as with
      | nil => simp at h
      | cons b bs =>
          cases k with
          | zero => rfl
          | succ k => exact ih k (by simpa using h)

theorem getD_zipWith_mul (a b : Vec) (k : Nat) (ha : k < a.length) (hb : k < b.length) :
    (List.zipWith (· * ·) a b).getD k 0 = a.getD k 0 * b.getD k 0 := by
  induction a generalizing b k with
  | nil => simp at ha
  | cons x xs ih =>
      cases b with
      | nil => simp at hb
      | cons y ys =>
          cases k with
          | zero => rfl
          | succ k => exact ih ys k (by simpa using ha) (by simpa using hb)

theorem ext_getD (a b : Vec) (hlen : a.length = b.length)
    (h : ∀ k, k < a.length → a.getD k 0 = b.getD k 0) : a = b := by
  induction a generalizing b with
  | nil => cases b with
      | nil => rfl
      | cons y ys => simp at hlen
  | cons x xs ih =>
      cases b with
      | nil => simp at hlen
      | cons y ys =>
          have h0 := h 0 (by simp)
          simp only [List.getD_cons_zero] at h0
          have htl : xs = ys := by
            refine ih ys (by simpa using hlen) ?_
            intro k hk
            have := h (k + 1) (by simpa using Nat.succ_lt_succ hk)
            simpa using this
          rw [h0, htl]

theorem getD_of_get? {α : Type} (l : List α) (n : Nat) (a d : α) (h : l.get? n = some a) :
    l.getD n d = a := by
  induction l generalizing n with
  | nil => simp [List.get?] at h
  | cons x xs ih =>
      cases n with
      | zero => simp [List.get?] at h; simp [h]
      | succ n => exact ih n h

theorem length_cumsumFrom (acc : ℚ) (l : Vec) : (cumsumFrom acc l).length = l.length := by
  induction l generalizing acc with
  | nil => rfl
  | cons a as ih => simp [cumsumFrom, ih]

/- Lemmas about the fit loop. -/

theorem bind_ok {α β : Type} (a : α) (f : α → Except String β) :
    Except.bind (Except.ok a) f = f a := rfl

theorem bind_err {α β : Type} (e : String) (f : α → Except String β) :
    Except.bind (Except.error e) f = Except.error e := rfl

theorem runSteps_cons {S : Type} (ctx : Ctx S) (times : Vec) (i : Nat) (ob : Vec)
    (rest : List (Nat × Vec)) (s : LoopState S) :
    runSteps ctx times ((i, ob) :: rest) s
      = (fitStep ctx times i ob s).bind (runSteps ctx times rest) := rfl

/-- The `obs_idx = 0` branch of the loop always succeeds (given a nonempty
times vector) and produces exactly the forced one-hot state. -/
theorem fitStep_zero {S : Type} (ctx : Ctx S) (times : Vec) (ob : Vec)
    (s : LoopState S) (h : 0 < times.length) :
    fitStep ctx times 0 ob s = .ok
      { s with
        priors := set2 s.priors 0 0 1
        probs := set2 s.probs 0 0 1
        counts := set2 s.counts 0 0 1
        means := initClusterParamsMVN ob 0 s.means
        dynState := ctx.dyn.initState ((set2 s.probs 0 0 1).getD 0 []) (times.getD 0 0)
        dynLog := s.dynLog ++
          [DynEvent.initEv ((set2 s.probs 0 0 1).getD 0 []) (times.getD 0 0)] } := by
  obtain ⟨v, hv⟩ : ∃ v, times.get? 0 = some v := by
    cases h' : times.get? 0 with
    | none =>
        rw [List.get?_eq_none] at h'
        omega
    | some v => exact ⟨v, rfl⟩
  have hv' : times[0]? = some v := by
    rw [← List.get?_eq_getElem?]
    exact hv
  have hd : times.getD 0 0 = v := getD_of_get? times 0 v 0 hv
  simp [fitStep, geti, hv, hv', Except.bind, hd]

/-- The final loop iteration `obs_idx = N-1` always raises: the very first
thing the `obs_idx > 0` branch does is index `torch_observations_times`
at `obs_idx + 1 = N`. -/
theorem fitStep_last_errors {S : Type} (ctx : Ctx S) (times : Vec) (i : Nat)
    (ob : Vec) (s : LoopState S) (hi : i ≠ 0) (hlen : i + 1 = times.length) :
    fitStep ctx times i ob s = .error (errTimesIdx (i + 1)) := by
  obtain ⟨v, hv⟩ : ∃ v, times.get? i = some v := by
    cases h' : times.get? i with
    | none =>
        rw [List.get?_eq_none] at h'
        omega
    | some v => exact ⟨v, rfl⟩
  have hv' : times[i]? = some v := by
    rw [← List.get?_eq_getElem?]
    exact hv
  have hnone : times.get? (i + 1) = none := by
    rw [List.get?_eq_none]
    omega
  have hnone' : times[i + 1]? = none := by
    rw [← List.get?_eq_getElem?]
    exact hnone
  simp [fitStep, hi, geti, hv, hv', hnone, hnone', Except.bind]

/-- If the step at the last enumerated index always errors, the whole loop
errors, whatever happens before. -/
theorem runSteps_errors_of_last {S : Type} (ctx : Ctx S) (times : Vec) :
    ∀ (l : List Vec) (i : Nat) (s : LoopState S), l ≠ [] →
      (∀ ob s', ∃ e, fitStep ctx times (i + l.length - 1) ob s' = .error e) →
      ∃ e, runSteps ctx times (enumFrom i l) s = .error e := by
  intro l
  induction l with
  | nil => intro i s hne _; exact absurd rfl hne
  | cons a tl ih =>
      intro i s _ hlast
      cases tl with
      | nil =>
          obtain ⟨e, he⟩ := hlast a s
          refine ⟨e, ?_⟩
          have hi : i + [a].length - 1 = i := by simp
          rw [hi] at he
          show runSteps ctx times ((i, a) :: enumFrom (i + 1) []) s = Except.error e
          rw [runSteps_cons, he, bind_err]
      | cons b tl' =>
          cases hstep : fitStep ctx times i a s with
          | error e =>
              refine ⟨e, ?_⟩
              show runSteps ctx times ((i, a) :: enumFrom (i + 1) (b :: tl')) s
                = Except.error e
              rw [runSteps_cons, hstep, bind_err]
          | ok s' =>
              have harith : (i + 1) + (b :: tl').length - 1
                  = i + (a :: b :: tl').length - 1 := by
                simp only [List.length_cons]
                omega
              obtain ⟨e, he⟩ := ih (i + 1) s' (by simp) (by rw [harith]; exact hlast)
              refine ⟨e, ?_⟩
              show runSteps ctx times ((i, a) :: enumFrom (i + 1) (b :: tl')) s
                = Except.error e
              rw [runSteps_cons, hstep, bind_ok, he]

/-- Any fit over at least two observations (with the matching-length times
vector of the fit contract) raises before completing. -/
theorem fit_errors_of_two_le {S : Type} (ctx : Ctx S) (model : ModelState)
    (observations : List Vec) (times : Vec)
    (ht : times.length = observations.length) (h2 : 2 ≤ observations.length) :
    ∃ e, fit ctx model observations times = .error e := by
  by_cases hd : ctx.cfg.distribution = mvnStr
  · have hne : observations ≠ [] := by
      intro h
      rw [h] at h2
      simp at h2
    have hlast : ∀ (ob : Vec) (s' : LoopState S),
        ∃ e, fitStep ctx times (0 + observations.length - 1) ob s' = .error e := by
      intro ob s'
      refine ⟨errTimesIdx (0 + observations.length - 1 + 1), ?_⟩
      exact fitStep_last_errors ctx times _ ob s' (by omega) (by omega)
    obtain ⟨e, he⟩ := runSteps_errors_of_last ctx times observations 0
      (initLS ctx observations) hne hlast
    refine ⟨e, ?_⟩
    unfold fit
    rw [if_pos hd, he]
    rfl
  · by_cases hd2 : ctx.cfg.distribution = dmStr
    · exact ⟨errNotImplDM, by unfold fit; rw [if_neg hd, if_pos hd2]⟩
    · exact ⟨errNotImplOtherDist, by unfold fit; rw [if_neg hd, if_neg hd2]⟩

/-- A single-observation fit completes without error and stores the
`t = 0` initial-state bundle internally, while the `return` statement hands
back the untouched `fit_results` attribute. -/
theorem fit_single_obs {S : Type} (ctx : Ctx S) (model : ModelState) (ob : Vec)
    (t : ℚ) (hd : ctx.cfg.distribution = mvnStr) :
    fit ctx model [ob] [t] = .ok
      ⟨⟨model.fit_results, some
          ⟨[[1]], [[1]], [[1]], [[ob]],
           [[smulMat (ctx.oracle.sqrtQ ctx.cfg.centroidsPriorCovPrefactor) (eye ob.length)],
            [smulMat (ctx.oracle.sqrtQ ctx.cfg.centroidsPriorCovPrefactor) (eye ob.length)]]⟩⟩,
       [DynEvent.initEv [1] t], model.fit_results⟩ := by
  unfold fit
  rw [if_pos hd]
  rfl

/-- Pointwise specification of the in-place slice add when the right-hand
side matches the slice length. -/
theorem sliceAddVec_spec (x : Vec) (lo hi : Nat) (y : Vec)
    (hhi : hi ≤ x.length) (hlen : y.length = hi - lo) :
    ∃ z, sliceAddVec x lo hi y = .ok z ∧ z.length = x.length ∧
      ∀ k, k < x.length →
        z.getD k 0 = x.getD k 0 + (if lo ≤ k ∧ k < hi then y.getD (k - lo) 0 else 0) := by
  have hbound : min hi x.length = hi := by omega
  refine ⟨mapWithIdx
    (fun j v => if lo ≤ j ∧ j < min hi x.length then v + y.getD (j - lo) 0 else v) 0 x,
    ?_, ?_, ?_⟩
  · unfold sliceAddVec
    rw [if_pos (by omega)]
  · exact length_mapWithIdx _ 0 x
  · intro k hk
    rw [getD_mapWithIdx _ _ _ _ hk]
    simp only [Nat.zero_add, hbound]
    by_cases hcase : lo ≤ k ∧ k < hi
    · rw [if_pos hcase, if_pos hcase]
    · rw [if_neg hcase, if_neg hcase]
      ring

theorem tmulV_eq (a b : Vec) (h : a.length = b.length) :
    tmulV a b = .ok (List.zipWith (· * ·) a b) := by
  unfold tmulV
  rw [if_pos h]

/-- C4 (amended): for every step `t > 0`, the cluster-assignment prior is
built by incrementing every slot `k` with `1 ≤ k ≤ t` by `alpha` times the
previous step's cluster-count posterior mass at entry `k-1` (so the
new-cluster slot `t` gains `alpha * prev[t-1]`, and the existing slots
`1..t-1` gain alpha terms as well), after which the whole vector is
renormalized to sum to 1. -/
theorem buildPrior_eq_amended (a : ℚ) (t : Nat) (forecast prevRow : Vec)
    (h2 : t + 1 ≤ forecast.length) (h3 : t ≤ prevRow.length)
    (h4 : sumQ (priorUnnormalizedRef a t forecast prevRow) ≠ 0) :
    buildPrior a t forecast prevRow = .ok (buildPriorAmendedRef a t forecast prevRow) := by
  have hytake : (prevRow.take t).length = t := by
    rw [List.length_take]
    omega
  have hy : (smulVec a (prevRow.take t)).length = t + 1 - 1 := by
    unfold smulVec
    rw [List.length_map, hytake]
    omega
  obtain ⟨z, hz, hzlen, hzval⟩ := sliceAddVec_spec forecast 1 (t + 1)
    (smulVec a (prevRow.take t)) h2 hy
  have hzeq : z = priorUnnormalizedRef a t forecast prevRow := by
    refine ext_getD _ _ ?_ ?_
    · rw [hzlen]
      unfold priorUnnormalizedRef
      rw [length_mapWithIdx]
    · intro k hk
      rw [hzlen] at hk
      rw [hzval k hk]
      unfold priorUnnormalizedRef
      rw [getD_mapWithIdx _ _ _ _ hk]
      simp only [Nat.zero_add]
      by_cases hcase : 1 ≤ k ∧ k ≤ t
      · rw [if_pos ⟨hcase.1, by omega⟩, if_pos hcase]
        have hk1 : k - 1 < (prevRow.take t).length := by omega
        unfold smulVec
        rw [getD_map0 _ _ _ hk1, getD_take _ _ _ _ (by omega)]
      · rw [if_neg (by omega), if_neg hcase]
  unfold buildPrior
  rw [hz, bind_ok, hzeq, if_neg h4]
  rfl

/-- C5: for every step `t > 0`, the cluster-count posterior is updated by the
exact O(t) recursion: with `C` the cumulative sum of the current assignment
posterior over slots `0..t`, the new posterior satisfies
`new[k] += C[k] * prev[k]` for every `k < t` and
`new[k+1] += (1 - C[k]) * prev[k]` for every `k < t`, where `prev` is the
previous step's count posterior of length `t`. -/
theorem updateCountsRow_eq_ref (posterior prevRow : Vec) (t : Nat) (row : Vec)
    (hp : t + 1 ≤ posterior.length) (hq : t ≤ prevRow.length)
    (hr : t + 1 ≤ row.length) :
    updateCountsRow posterior prevRow t row
      = .ok (countsRecursionRef posterior prevRow t row) := by
  have hcum : (cumsum (posterior.take (t + 1))).length = t + 1 := by
    unfold cumsum
    rw [length_cumsumFrom, List.length_take]
    omega
  have hdropcum : (cumsum (posterior.take (t + 1))).dropLast.length = t := by
    rw [List.length_dropLast, hcum]
    omega
  have hprevtake : (prevRow.take t).length = t := by
    rw [List.length_take]
    omega
  have hmul1 := tmulV_eq (cumsum (posterior.take (t + 1))).dropLast (prevRow.take t)
    (by rw [hdropcum, hprevtake])
  have hlen1 : (List.zipWith (· * ·) (cumsum (posterior.take (t + 1))).dropLast
      (prevRow.take t)).length = t - 0 := by
    rw [List.length_zipWith, hdropcum, hprevtake]
    omega
  obtain ⟨z1, hz1, hz1len, hz1val⟩ := sliceAddVec_spec row 0 t
    (List.zipWith (· * ·) (cumsum (posterior.take (t + 1))).dropLast (prevRow.take t))
    (by omega) hlen1
  have hdropom : ((cumsum (posterior.take (t + 1))).map (fun x => 1 - x)).dropLast.length
      = t := by
    rw [List.length_dropLast, List.length_map, hcum]
    omega
  have hmul2 := tmulV_eq
    ((cumsum (posterior.take (t + 1))).map (fun x => 1 - x)).dropLast (prevRow.take t)
    (by rw [hdropom, hprevtake])
  have hlen2 : (List.zipWith (· * ·)
      ((cumsum (posterior.take (t + 1))).map (fun x => 1 - x)).dropLast
      (prevRow.take t)).length = t + 1 - 1 := by
    rw [List.length_zipWith, hdropom, hprevtake]
    omega
  obtain ⟨z2, hz2, hz2len, hz2val⟩ := sliceAddVec_spec z1 1 (t + 1)
    (List.zipWith (· * ·)
      ((cumsum (posterior.take (t + 1))).map (fun x => 1 - x)).dropLast (prevRow.take t))
    (by omega) hlen2
  have hfinal : z2 = countsRecursionRef posterior prevRow t row := by
    refine ext_getD _ _ ?_ ?_
    · rw [hz2len, hz1len]
      unfold countsRecursionRef
      rw [length_mapWithIdx]
    · intro k hk
      rw [hz2len, hz1len] at hk
      rw [hz2val k (by rw [hz1len]; exact hk), hz1val k hk]
      unfold countsRecursionRef
      rw [getD_mapWithIdx _ _ _ _ hk]
      simp only [Nat.zero_add, Nat.sub_zero]
      have hval1 : k < t →
          (List.zipWith (· * ·) (cumsum (posterior.take (t + 1))).dropLast
            (prevRow.take t)).getD k 0
            = (cumsum (posterior.take (t + 1))).getD k 0 * prevRow.getD k 0 := by
        intro hkt
        rw [getD_zipWith_mul _ _ _ (by omega) (by omega)]
        rw [getD_dropLast _ _ _ (by omega), getD_take _ _ _ _ hkt]
      have hval2 : 1 ≤ k → k ≤ t →
          (List.zipWith (· * ·)
            ((cumsum (posterior.take (t + 1))).map (fun x => 1 - x)).dropLast
            (prevRow.take t)).getD (k - 1) 0
            = (1 - (cumsum (posterior.take (t + 1))).getD (k - 1) 0)
                * prevRow.getD (k - 1) 0 := by
        intro hk1 hkt
        rw [getD_zipWith_mul _ _ _ (by rw [hdropom]; omega) (by rw [hprevtake]; omega)]
        rw [getD_dropLast _ _ _ (by rw [List.length_map, hcum]; omega)]
        rw [getD_map0 _ _ _ (by rw [hcum]; omega)]
        rw [getD_take _ _ _ _ (by omega)]
      split_ifs with hc1 hc2 hc3 hc4 <;>
          (try rw [hval1 (by omega)]) <;>
          (try rw [hval2 (by omega) (by omega)]) <;>
          (try (exfalso; omega)) <;>
          (try ring)
  unfold updateCountsRow
  rw [hmul1, bind_ok, hz1, bind_ok, hmul2, bind_ok, hz2, hfinal]

theorem list_sum_div (l : List ℝ) (c : ℝ) :
    (l.map (fun y => y / c)).sum = l.sum / c := by
  induction l with
  | nil => simp
  | cons a as ih => simp [ih, add_div]

/-- The softmax at rncrp.py line 316 always emits a vector in `[0,1]` that
sums to 1, for any real scores. -/
theorem softargmaxR_props (x : List ℝ) (hx : x ≠ []) :
    (∀ p ∈ softargmaxR x, 0 ≤ p ∧ p ≤ 1) ∧ (softargmaxR x).sum = 1 := by
  have hnn : ∀ y ∈ x.map Real.exp, 0 ≤ y := by
    intro y hy
    obtain ⟨v, _, rfl⟩ := List.mem_map.mp hy
    exact (Real.exp_pos v).le
  have hpos : 0 < (x.map Real.exp).sum := by
    cases x with
    | nil => exact absurd rfl hx
    | cons a as =>
        have h2 : 0 ≤ (as.map Real.exp).sum := by
          refine List.sum_nonneg ?_
          intro y hy
          obtain ⟨v, _, rfl⟩ := List.mem_map.mp hy
          exact (Real.exp_pos v).le
        have h1 : 0 < Real.exp a := Real.exp_pos a
        simp only [List.map_cons, List.sum_cons]
        linarith
  constructor
  · intro p hp
    obtain ⟨v, hv, rfl⟩ := List.mem_map.mp hp
    refine ⟨div_nonneg (Real.exp_pos v).le hpos.le, ?_⟩
    rw [div_le_one hpos]
    exact List.single_le_sum hnn _ (List.mem_map_of_mem Real.exp hv)
  · unfold softargmaxR
    have hcomp : (x.map fun v => Real.exp v / (x.map Real.exp).sum)
        = (x.map Real.exp).map (fun y => y / (x.map Real.exp).sum) := by
      rw [List.map_map]
      rfl
    rw [hcomp, list_sum_div, div_self (ne_of_gt hpos)]

/-- Every recorded assignment-posterior row of a completed fit passes the
stochasticity check: over at least two observations the fit never completes,
over one it records the forced one-hot row, and over none it records
nothing. -/
theorem stochCheck_fit {S : Type} (ctx : Ctx S) (model : ModelState)
    (observations : List Vec) (times : Vec)
    (ht : times.length = observations.length) :
    stochCheck (fit ctx model observations times) = true := by
  by_cases hd : ctx.cfg.distribution = mvnStr
  · cases observations with
    | nil =>
        unfold fit
        rw [if_pos hd]
        rfl
    | cons ob tl =>
        cases tl with
        | nil =>
            obtain ⟨t, rfl⟩ := List.length_eq_one.mp (by simpa using ht)
            rw [fit_single_obs ctx model ob t hd]
            with_unfolding_all rfl
        | cons ob2 tl2 =>
            obtain ⟨e, he⟩ := fit_errors_of_two_le ctx model (ob :: ob2 :: tl2) times ht
              (by simp only [List.length_cons]; omega)
            rw [he]
            rfl
  · by_cases hd2 : ctx.cfg.distribution = dmStr
    · unfold fit
      rw [if_neg hd, if_pos hd2]
      rfl
    · unfold fit
      rw [if_neg hd, if_neg hd2]
      rfl

theorem set2_zerosMat_row0 (n : Nat) (h : 0 < n) :
    (set2 (zerosMat n n) 0 0 1).getD 0 [] = oneHot n := by
  unfold set2
  rw [getD_set_self _ _ _ _ (by simpa [zerosMat] using h)]
  unfold zerosMat
  rw [getD_replicate_pos _ _ _ _ h]
  rfl

theorem set2V_zerosT3_00 (n m : Nat) (v : Vec) (h : 0 < n) :
    ((set2V (zerosT3 n n m) 0 0 v).getD 0 []).getD 0 [] = v := by
  unfold set2V
  rw [getD_set_self _ _ _ _ (by simpa [zerosT3] using h)]
  rw [getD_set_self _ _ _ _ ?_]
  unfold zerosT3
  rw [getD_replicate_pos _ _ _ _ h]
  unfold zerosMat
  rw [List.length_replicate]
  exact h

/- The claims. -/

/-- C1: the claim says a completing fit returns the result bundle to the
caller while the model retains an internal copy.  In fact `fit` assembles
the bundle into `self._fit_results` (rncrp.py line 223) but then executes
`return self.fit_results` (line 230) — a distinct attribute that `__init__`
set to `None` (line 44) and nothing ever reassigns.  Evaluated here on a
completing single-observation fit: the internal copy holds the full bundle,
while the value handed back to the caller is `None`. -/
theorem C1_fit_returns_stale_none_not_bundle :
    okOf (fit ctxStd initialModelState [[7]] [2]) = some
      ⟨⟨none, some ⟨[[1]], [[1]], [[1]], [[[7]]], [[[[1]]], [[[1]]]]⟩⟩,
       [DynEvent.initEv [1] 2], none⟩
  ∧ (okOf (fit ctxStd initialModelState [[7]] [2])).map FitSuccess.ret = some none := by
  constructor
  · with_unfolding_all decide
  · with_unfolding_all decide

/-- C2: over any observation sequence with `N ≥ 2` (and the contractual
length-`N` times vector) the fit raises before completing; at `N = 2` the
raise is the out-of-bounds read of `torch_observations_times` at position 2
on the final iteration, at `N = 3` the Gaussian parameter update already
fails earlier on the mismatched combination of the length-`N`
assignment-probability row with the observation repeated `obs_idx` times;
and a fit can run to the end for `N = 1`. -/
theorem C2_fit_errors_beyond_single_observation :
    (∀ (S : Type) (ctx : Ctx S) (model : ModelState) (observations : List Vec)
        (times : Vec), times.length = observations.length →
        2 ≤ observations.length →
        ∃ e, fit ctx model observations times = .error e)
  ∧ errOf (fit ctxStd initialModelState [[1], [2]] [10, 20]) = some (errTimesIdx 2)
  ∧ errOf (fit ctxStd initialModelState [[1], [2], [3]] [10, 20, 30]) = some errAddShape
  ∧ (∀ (S : Type) (ctx : Ctx S) (model : ModelState) (ob : Vec) (t : ℚ),
        ctx.cfg.distribution = mvnStr → ∃ s, fit ctx model [ob] [t] = .ok s) := by
  refine ⟨fun S ctx model obs times ht h2 => fit_errors_of_two_le ctx model obs times ht h2,
    ?_, ?_, fun S ctx model ob t hd => ⟨_, fit_single_obs ctx model ob t hd⟩⟩
  · with_unfolding_all decide
  · with_unfolding_all decide

theorem C2_fit_errors_beyond_single_observation_witness :
    (∃ e, fit ctxStd initialModelState [[1], [2]] [10, 20] = .error e)
  ∧ (∃ s, fit ctxStd initialModelState [[5]] [1] = .ok s) :=
  ⟨C2_fit_errors_beyond_single_observation.1 (List ℚ) ctxStd initialModelState
      [[1], [2]] [10, 20] (by decide) (by decide),
   C2_fit_errors_beyond_single_observation.2.2.2 (List ℚ) ctxStd initialModelState
      [5] 1 rfl⟩

/-- C3: the claim says the step-`t` dynamics forecast is requested over
`[time[t-1], time[t]]` and the times vector is never indexed beyond
position `N-1`.  The code instead calls `run_dynamics(time_start =
times[obs_idx], time_end = times[obs_idx+1])` (rncrp.py lines 140-142):
with times `[10, 20, 30]` the step-1 forecast call recorded in the dynamics
log is over `(20, 30)`, not `(10, 20)`; and with `N = 2` the final
iteration reads `times[2]`, one past the end, aborting the fit. -/
theorem C3_run_dynamics_times_off_by_one :
    (resOpt (runSteps ctxNoAscent [10, 20, 30] [(0, [1]), (1, [2])]
        (initLS ctxNoAscent [[1], [2], [3]]))).map LoopState.dynLog
      = some [DynEvent.initEv [1, 0, 0] 10, DynEvent.runEv 20 30,
              DynEvent.updEv [1/2, 1/2, 0] 20]
  ∧ errOf (fit ctxStd initialModelState [[1], [2]] [10, 20]) = some (errTimesIdx 2) := by
  constructor
  · with_unfolding_all decide
  · with_unfolding_all decide

/-- C4 counterexample: at `t = 2`, with forecast `[1, 1, 1]` and previous
count posterior `[1/2, 1/2]`, the implementation adds the alpha term to
slots 1 and 2 (yielding `[1/4, 3/8, 3/8]`), whereas the claim's
builder — incrementing only the new-cluster slot `t` by alpha times the
cumulative mass — would yield `[1/4, 1/4, 1/2]`: slot 1's mass is changed by
the alpha term, contradicting the claim. -/
theorem C4_alpha_only_on_new_slot_counterexample :
    resOpt (buildPrior 1 2 [1, 1, 1] [1/2, 1/2, 0]) = some [1/4, 3/8, 3/8]
  ∧ buildPriorNewSlotOnly 1 2 [1, 1, 1] [1/2, 1/2, 0] = [1/4, 1/4, 1/2]
  ∧ resOpt (buildPrior 1 2 [1, 1, 1] [1/2, 1/2, 0])
      ≠ some (buildPriorNewSlotOnly 1 2 [1, 1, 1] [1/2, 1/2, 0]) := by
  refine ⟨?_, ?_, ?_⟩ <;> with_unfolding_all decide

theorem C4_amended_witness :
    buildPrior 1 2 [1, 1, 1] [1/2, 1/2, 0]
      = .ok (buildPriorAmendedRef 1 2 [1, 1, 1] [1/2, 1/2, 0]) :=
  buildPrior_eq_amended 1 2 [1, 1, 1] [1/2, 1/2, 0] (by decide) (by decide)
    (by with_unfolding_all decide)

theorem C5_counts_recursion_witness :
    updateCountsRow [1/2, 1/2, 0] [1, 0, 0] 1 [0, 0, 0]
      = .ok (countsRecursionRef [1/2, 1/2, 0] [1, 0, 0] 1 [0, 0, 0]) :=
  updateCountsRow_eq_ref [1/2, 1/2, 0] [1, 0, 0] 1 [0, 0, 0]
    (by decide) (by decide) (by decide)

/-- C6: at step `t = 0`, for every configuration and every input, the
recorded assignment prior, assignment posterior and cluster-count posterior
rows are exactly one-hot on slot 0 (count posterior one-hot on count 1), the
dynamics process is initialized with that one-hot assignment at `time[0]`
(both in its state and in the call log), and slot 0's Gaussian mean is set
to the first observation. -/
theorem C6_initial_step_is_one_hot :
    ∀ (S : Type) (ctx : Ctx S) (observations : List Vec) (times : Vec),
      1 ≤ observations.length → 1 ≤ times.length →
      ∃ s, fitStep ctx times 0 (observations.getD 0 []) (initLS ctx observations) = .ok s
        ∧ s.priors.getD 0 [] = oneHot observations.length
        ∧ s.probs.getD 0 [] = oneHot observations.length
        ∧ s.counts.getD 0 [] = oneHot observations.length
        ∧ s.dynState = ctx.dyn.initState (oneHot observations.length) (times.getD 0 0)
        ∧ s.dynLog = [DynEvent.initEv (oneHot observations.length) (times.getD 0 0)]
        ∧ (s.means.getD 0 []).getD 0 [] = observations.getD 0 [] := by
  intro S ctx observations times hobs htimes
  refine ⟨_, fitStep_zero ctx times (observations.getD 0 [])
    (initLS ctx observations) (by omega), ?_, ?_, ?_, ?_, ?_, ?_⟩
  · show (set2 (zerosMat observations.length observations.length) 0 0 1).getD 0 []
      = oneHot observations.length
    exact set2_zerosMat_row0 observations.length (by omega)
  · show (set2 (zerosMat observations.length observations.length) 0 0 1).getD 0 []
      = oneHot observations.length
    exact set2_zerosMat_row0 observations.length (by omega)
  · show (set2 (zerosMat observations.length observations.length) 0 0 1).getD 0 []
      = oneHot observations.length
    exact set2_zerosMat_row0 observations.length (by omega)
  · show ctx.dyn.initState
        ((set2 (zerosMat observations.length observations.length) 0 0 1).getD 0 [])
        (times.getD 0 0)
      = ctx.dyn.initState (oneHot observations.length) (times.getD 0 0)
    rw [set2_zerosMat_row0 observations.length (by omega)]
  · show [] ++ [DynEvent.initEv
        ((set2 (zerosMat observations.length observations.length) 0 0 1).getD 0 [])
        (times.getD 0 0)]
      = [DynEvent.initEv (oneHot observations.length) (times.getD 0 0)]
    rw [set2_zerosMat_row0 observations.length (by omega)]
    rfl
  · show ((set2V (zerosT3 observations.length observations.length
        ((observations.getD 0 []).length)) 0 0 (observations.getD 0 [])).getD 0 []).getD 0 []
      = observations.getD 0 []
    exact set2V_zerosT3_00 observations.length _ _ (by omega)

theorem C6_initial_step_is_one_hot_witness :
    ∃ s, fitStep ctxStd [2] 0 ([[7]].getD 0 []) (initLS ctxStd [([7] : Vec)]) = .ok s
      ∧ s.priors.getD 0 [] = oneHot 1
      ∧ s.probs.getD 0 [] = oneHot 1
      ∧ s.counts.getD 0 [] = oneHot 1
      ∧ s.dynState = ctxStd.dyn.initState (oneHot 1) ([(2 : ℚ)].getD 0 0)
      ∧ s.dynLog = [DynEvent.initEv (oneHot 1) ([(2 : ℚ)].getD 0 0)]
      ∧ (s.means.getD 0 []).getD 0 [] = [[(7 : ℚ)]].getD 0 [] :=
  C6_initial_step_is_one_hot (List ℚ) ctxStd [[7]] [2] (by decide) (by decide)

/-- C7: the claim says a single-observation fit returns immediately with the
`t = 0` initial-state result, with no coordinate ascent, no dynamics
forecast and no error.  It does complete without error, performs no ascent
pass and requests no forecast (the dynamics log holds only the
initialization event), and it stores the `t = 0` initial-state bundle — but
internally: the call itself returns the stale `fit_results` attribute,
i.e. `None` (same slip as C1). -/
theorem C7_single_observation_completes :
    (∀ (S : Type) (ctx : Ctx S) (model : ModelState) (ob : Vec) (t : ℚ),
        ctx.cfg.distribution = mvnStr →
        fit ctx model [ob] [t] = .ok
          ⟨⟨model.fit_results, some
              ⟨[[1]], [[1]], [[1]], [[ob]],
               [[smulMat (ctx.oracle.sqrtQ ctx.cfg.centroidsPriorCovPrefactor) (eye ob.length)],
                [smulMat (ctx.oracle.sqrtQ ctx.cfg.centroidsPriorCovPrefactor) (eye ob.length)]]⟩⟩,
           [DynEvent.initEv [1] t], model.fit_results⟩)
  ∧ (okOf (fit ctxStd initialModelState [[5]] [3])).map FitSuccess.ret = some none := by
  refine ⟨fun S ctx model ob t hd => fit_single_obs ctx model ob t hd, ?_⟩
  with_unfolding_all decide

theorem C7_single_observation_completes_witness :
    fit ctxStd initialModelState [[2]] [5] = .ok
      ⟨⟨none, some ⟨[[1]], [[1]], [[1]], [[[2]]], [[[[1]]], [[[1]]]]⟩⟩,
       [DynEvent.initEv [1] 5], none⟩ := by
  with_unfolding_all
    exact C7_single_observation_completes.1 (List ℚ) ctxStd initialModelState [2] 5 rfl

/-- C8: every assignment-posterior row a completed fit records is entrywise
in `[0,1]` and sums to 1 over its active slots (at `t = 0` exactly by
construction), and the softmax producing the `t > 0` rows always emits a
vector in `[0,1]` summing to 1. -/
theorem C8_assignment_rows_stochastic :
    (∀ (S : Type) (ctx : Ctx S) (model : ModelState) (observations : List Vec)
        (times : Vec), times.length = observations.length →
        stochCheck (fit ctx model observations times) = true)
  ∧ (∀ x : List ℝ, x ≠ [] →
        (∀ p ∈ softargmaxR x, 0 ≤ p ∧ p ≤ 1) ∧ (softargmaxR x).sum = 1) :=
  ⟨fun S ctx model observations times ht => stochCheck_fit ctx model observations times ht,
   fun x hx => softargmaxR_props x hx⟩

theorem C8_assignment_rows_stochastic_witness :
    stochCheck (fit ctxStd initialModelState [[7]] [2]) = true
  ∧ ((∀ p ∈ softargmaxR [(0 : ℝ)], 0 ≤ p ∧ p ≤ 1) ∧ (softargmaxR [(0 : ℝ)]).sum = 1) :=
  ⟨C8_assignment_rows_stochastic.1 (List ℚ) ctxStd initialModelState [[7]] [2] (by decide),
   C8_assignment_rows_stochastic.2 [0] (by simp)⟩

/-- C9: constructing with `likelihood_params.distribution =
'dirichlet_multinomial'` makes the fit call raise `NotImplementedError` in
the pre-loop dispatch, before any observation is processed — the result is
the same fixed error for every observation sequence and times vector. -/
theorem C9_dirichlet_multinomial_fails_fast :
    ∀ (S : Type) (ctx : Ctx S) (model : ModelState) (observations : List Vec)
      (times : Vec), ctx.cfg.distribution = dmStr →
      fit ctx model observations times = .error errNotImplDM := by
  intro S ctx model observations times hd
  unfold fit
  rw [if_neg (by rw [hd]; decide), if_pos hd]

theorem C9_dirichlet_multinomial_fails_fast_witness :
    fit ctxDM initialModelState [[1]] [0] = .error errNotImplDM :=
  C9_dirichlet_multinomial_fails_fast (List ℚ) ctxDM initialModelState [[1]] [0] rfl

/-- C10: the claim says the post-fit accessor for centroids after the last
observation returns the per-slot means and does not fail; the body of
`features_after_last_obs` (rncrp.py lines 232-236) is a bare
`raise NotImplementedError`, despite its own docstring, so every call
fails. -/
theorem C10_features_after_last_obs_raises :
    ∀ model : ModelState, features_after_last_obs model = .error errNotImplFeatures :=
  fun _ => rfl

end RNCRP
